import Mathlib

/-!
Verification of the batch document-ingestion core of the long_article_writer
repository: the batch processor (`app/services/batch_processor.py`), the
upload-job state machine (`app/models/upload_jobs.py`,
`app/services/upload_manager_fixed.py`), the folder-hierarchy builder
(`app/models/folder_hierarchy.py`), the text chunker
(`app/services/text_processing.py`), the embedding client
(`app/services/ollama_client.py`), the per-document pipeline
(`app/services/document_processor.py`) and the cancel endpoint
(`app/api/routes/folder_upload.py`).

The Python code is shallowly embedded: pure computations become Lean
functions over `Nat`/`String`/`List`; database tables become lists of rows
threaded through the functions; the external embedding service and the
filesystem become oracle parameters.  Python strings are modelled by their
code-point sequences (`List Char`); Python float percentages are modelled
over `ℚ` (the inputs exercised by the claims are exactly representable).
-/

namespace LongArticleWriter

/-! ## Python string helpers

`List Char` versions of the Python string operations used by the ingestion
core: `str.strip()`, `re.sub(r'\s+', ...)` (whitespace-run collapsing),
`str.split(sep)` and `str.find`.  Python `\s` on the ASCII range is
space, tab, newline, carriage return, vertical tab and form feed.
-/

/-- Python `\s` / `str.isspace` on the ASCII range. -/
def isPySpace (c : Char) : Bool :=
  c = ' ' || c = '\t' || c = '\n' || c = '\r' || c = '\x0b' || c = '\x0c'

/-- Python `str.strip()` on a code-point list. -/
def pyStrip (l : List Char) : List Char :=
  ((l.dropWhile isPySpace).reverse.dropWhile isPySpace).reverse

/-- Replace every maximal run of characters satisfying `p` by the single
character `rep`; the flag records whether the previous character was part of
such a run.  This is Python `re.sub(r'X+', rep, s)` for a character class
`X`. -/
def collapseRunsAux (p : Char → Bool) (rep : Char) : Bool → List Char → List Char
  | _, [] => []
  | inRun, c :: rest =>
    if p c then
      if inRun then collapseRunsAux p rep true rest
      else rep :: collapseRunsAux p rep true rest
    else c :: collapseRunsAux p rep false rest

/-- Python `re.sub(r'X+', rep, s)` for a character class `X`. -/
def collapseRuns (p : Char → Bool) (rep : Char) (l : List Char) : List Char :=
  collapseRunsAux p rep false l

/-- Python `str.split(sep)` for a one-character separator, keeping empty
pieces (`"a//b".split('/') == ['a', '', 'b']`). -/
def splitCharList (sep : Char) : List Char → List (List Char)
  | [] => [[]]
  | c :: rest =>
    match splitCharList sep rest with
    | [] => [[]]
    | g :: gs => if c = sep then [] :: g :: gs else (c :: g) :: gs

theorem splitCharList_ne_nil (sep : Char) (l : List Char) : splitCharList sep l ≠ [] := by
  cases l with
  | nil => simp [splitCharList]
  | cons c rest =>
    simp only [splitCharList]
    rcases h : splitCharList sep rest with _ | ⟨g, gs⟩
    · simp
    · by_cases hc : c = sep <;> simp [hc]

theorem splitCharList_append_sep (sep : Char) (xs ys : List Char) :
    splitCharList sep (xs ++ sep :: ys) = splitCharList sep xs ++ splitCharList sep ys := by
  induction xs with
  | nil =>
    rcases h : splitCharList sep ys with _ | ⟨g, gs⟩
    · exact absurd h (splitCharList_ne_nil sep ys)
    · simp [splitCharList, h]
  | cons c xs ih =>
    rcases h : splitCharList sep xs with _ | ⟨g, gs⟩
    · exact absurd h (splitCharList_ne_nil sep xs)
    · rcases h' : splitCharList sep ys with _ | ⟨g', gs'⟩
      · exact absurd h' (splitCharList_ne_nil sep ys)
      · by_cases hc : c = sep <;> simp [splitCharList, ih, h, h', hc]

theorem splitCharList_of_not_mem (sep : Char) (l : List Char) (h : sep ∉ l) :
    splitCharList sep l = [l] := by
  induction l with
  | nil => rfl
  | cons c rest ih =>
    have hc : c ≠ sep := fun hcs => h (hcs ▸ List.mem_cons_self c rest)
    have hrest : sep ∉ rest := fun hm => h (List.mem_cons_of_mem c hm)
    simp [splitCharList, ih hrest, hc]

theorem not_mem_of_mem_splitCharList (sep : Char) (l : List Char) :
    ∀ g ∈ splitCharList sep l, sep ∉ g := by
  induction l with
  | nil => intro g hg; simp [splitCharList] at hg; simp [hg]
  | cons c rest ih =>
    intro g hg
    simp only [splitCharList] at hg
    rcases h : splitCharList sep rest with _ | ⟨g', gs'⟩
    · exact absurd h (splitCharList_ne_nil sep rest)
    · rw [h] at hg
      have hg'mem : g' ∈ splitCharList sep rest := by rw [h]; exact List.mem_cons_self g' gs'
      have htail : ∀ x ∈ gs', x ∈ splitCharList sep rest := by
        intro x hx; rw [h]; exact List.mem_cons_of_mem g' hx
      by_cases hc : c = sep
      · simp [hc] at hg
        rcases hg with hg | hg | hg
        · simp [hg]
        · exact ih g (hg ▸ hg'mem)
        · exact ih g (htail g hg)
      · simp [hc] at hg
        rcases hg with hg | hg
        · subst hg
          intro hmem
          rcases List.mem_cons.mp hmem with h1 | h1
          · exact hc h1.symm
          · exact ih g' hg'mem h1
        · exact ih g (htail g hg)

/-! ## Upload jobs and batch counters

`JobStatus` and the progress columns of `UploadJob`
(`app/models/upload_jobs.py`), and the per-completion counter updates of
`BatchProcessor.process_file_batch` / `process_file_batch_streaming`
(`app/services/batch_processor.py` lines 374–403 and 468–488: on each
completed per-file task, `total_processed` is incremented and the result is
appended to exactly one of `successful` / `failed`, with the error text
appended to `errors` on failure).
-/

/-- `JobStatus` enumeration (`app/models/upload_jobs.py`). -/
inductive JobStatus where
  | pending
  | processing
  | completed
  | failed
  | cancelled
deriving DecidableEq, Repr

/-- The progress-relevant columns of the `upload_jobs` table
(`app/models/upload_jobs.py`).  Timestamps are abstract ticks. -/
structure UploadJob where
  id : Nat
  job_id : String
  collection_id : Nat
  status : JobStatus
  total_files : Nat
  processed_files : Nat
  successful_files : Nat
  failed_files : Nat
  started_at : Option Nat
  completed_at : Option Nat
  error_log : List String
deriving DecidableEq, Repr

/-- The per-file result dictionary consumed by the batch completion loop:
`result["file"]`, `result["success"]`, and `result["error"]` (present on
failures). -/
structure FileResult where
  file : String
  success : Bool
  error : String
deriving DecidableEq, Repr

/-- The `results` accumulator of `process_file_batch` /
`process_file_batch_streaming`: the `successful` file list, the `failed`
result list, the `errors` list and `total_processed`. -/
structure BatchCounters where
  successful : List String
  failed : List FileResult
  errors : List String
  totalProcessed : Nat
deriving DecidableEq, Repr

/-- One iteration of the completion loop (`batch_processor.py` lines
376–384 / 469–476): `total_processed += 1`; on success append the filename
to `successful`, otherwise append the result to `failed` and its error to
`errors`. -/
def batchStep (st : BatchCounters) (r : FileResult) : BatchCounters :=
  { totalProcessed := st.totalProcessed + 1
    successful := if r.success then st.successful ++ [r.file] else st.successful
    failed := if r.success then st.failed else st.failed ++ [r]
    errors := if r.success then st.errors else st.errors ++ [r.error] }

/-- The counters after consuming a sequence of completed per-file results
(the results arrive in completion order; the claims quantify over every
order). -/
def batchAggregate (results : List FileResult) : BatchCounters :=
  results.foldl batchStep ⟨[], [], [], 0⟩

/-- `batch_processor.py` line 409: the streaming variant's terminal status,
`COMPLETED` iff no file failed, else `FAILED`. -/
def streamingFinalStatus (results : List FileResult) : JobStatus :=
  if (batchAggregate results).failed.length = 0 then JobStatus.completed else JobStatus.failed

/-- `upload_manager_fixed.py` line 219: `job.total_files = len(files)`. -/
def setTotalFiles (job : UploadJob) (n : Nat) : UploadJob :=
  { job with total_files := n }

/-- `UploadManager._process_job_async` final update
(`upload_manager_fixed.py` lines 243–253): after `process_file_batch`
returns, the job status is set to `COMPLETED` (unconditionally), the
completion timestamp is recorded and the counters and error log are copied
from the batch results. -/
def processJobFinalUpdate (job : UploadJob) (results : BatchCounters) (now : Nat) : UploadJob :=
  { job with
    status := JobStatus.completed
    completed_at := some now
    processed_files := results.totalProcessed
    successful_files := results.successful.length
    failed_files := results.failed.length
    error_log := if results.errors ≠ [] then results.errors else job.error_log }

theorem batchAggregate_foldl_invariant (results : List FileResult) (st : BatchCounters) :
    (results.foldl batchStep st).totalProcessed = st.totalProcessed + results.length ∧
    (results.foldl batchStep st).successful.length + (results.foldl batchStep st).failed.length
      = st.successful.length + st.failed.length + results.length := by
  induction results generalizing st with
  | nil => simp
  | cons r rest ih =>
    have h := ih (batchStep st r)
    simp only [List.foldl_cons] at *
    rcases h with ⟨h1, h2⟩
    refine ⟨?_, ?_⟩
    · rw [h1]; simp [batchStep]; omega
    · rw [h2]
      by_cases hs : r.success <;> simp [batchStep, hs] <;> omega

theorem batchAggregate_totalProcessed (results : List FileResult) :
    (batchAggregate results).totalProcessed = results.length := by
  have h := batchAggregate_foldl_invariant results ⟨[], [], [], 0⟩
  simpa [batchAggregate] using h.1

theorem batchAggregate_counts (results : List FileResult) :
    (batchAggregate results).successful.length + (batchAggregate results).failed.length
      = results.length := by
  have h := batchAggregate_foldl_invariant results ⟨[], [], [], 0⟩
  simpa [batchAggregate] using h.2

theorem batchAggregate_foldl_successful (results : List FileResult) (st : BatchCounters) :
    (results.foldl batchStep st).successful
      = st.successful ++ (results.filter (fun r => r.success)).map (fun r => r.file) := by
  induction results generalizing st with
  | nil => simp
  | cons r rest ih =>
    simp only [List.foldl_cons, ih]
    by_cases hs : r.success <;> simp [batchStep, hs]

theorem batchAggregate_successful (results : List FileResult) :
    (batchAggregate results).successful
      = (results.filter (fun r => r.success)).map (fun r => r.file) := by
  simpa [batchAggregate] using batchAggregate_foldl_successful results ⟨[], [], [], 0⟩

theorem batchAggregate_foldl_failed (results : List FileResult) (st : BatchCounters) :
    (results.foldl batchStep st).failed
      = st.failed ++ results.filter (fun r => ¬ r.success) := by
  induction results generalizing st with
  | nil => simp
  | cons r rest ih =>
    simp only [List.foldl_cons, ih]
    by_cases hs : r.success <;> simp [batchStep, hs]

theorem batchAggregate_failed (results : List FileResult) :
    (batchAggregate results).failed = results.filter (fun r => ¬ r.success) := by
  simpa [batchAggregate] using batchAggregate_foldl_failed results ⟨[], [], [], 0⟩

/-- A sample job row used as a concrete starting point by the witnesses and
counterexamples below. -/
def sampleJob : UploadJob :=
  { id := 1, job_id := "upload_1700000000_abcd1234", collection_id := 1
    status := JobStatus.processing, total_files := 0, processed_files := 0
    successful_files := 0, failed_files := 0, started_at := some 3
    completed_at := none, error_log := [] }

/-- C2 counterexample: a one-file batch whose single file fails.
`UploadManager._process_job_async` (`upload_manager_fixed.py` lines
243–253) still marks the job `COMPLETED` (with `failed_files = 1`), so the
claim "the job is marked `failed` when at least one file failed" is false
for the job path actually used by the upload routes. -/
theorem C2_counterexample :
    (processJobFinalUpdate (setTotalFiles sampleJob 1)
        (batchAggregate [⟨"bad.txt", false, "boom"⟩]) 7).failed_files = 1 ∧
      (processJobFinalUpdate (setTotalFiles sampleJob 1)
        (batchAggregate [⟨"bad.txt", false, "boom"⟩]) 7).status = JobStatus.completed ∧
      (processJobFinalUpdate (setTotalFiles sampleJob 1)
        (batchAggregate [⟨"bad.txt", false, "boom"⟩]) 7).status ≠ JobStatus.failed := by
  decide

/-- C2 (amended): the streaming batch variant
(`process_file_batch_streaming`, `batch_processor.py` line 409) does mark
the run `completed` exactly when zero files failed and `failed` otherwise;
but the upload-job path actually used by the routes
(`UploadManager._process_job_async` calling `process_file_batch`) marks the
job `completed` unconditionally once the batch returns, while still
recording the per-file successful list (as a count and as the filtered file
names). -/
theorem C2_job_terminal_status (results : List FileResult) (job : UploadJob) (now : Nat) :
    (streamingFinalStatus results = JobStatus.completed ↔ ∀ r ∈ results, r.success = true) ∧
      (streamingFinalStatus results = JobStatus.failed ↔ ∃ r ∈ results, r.success = false) ∧
      (processJobFinalUpdate job (batchAggregate results) now).status = JobStatus.completed ∧
      (processJobFinalUpdate job (batchAggregate results) now).successful_files
        = ((results.filter (fun r => r.success)).map (fun r => r.file)).length := by
  have hfailed := batchAggregate_failed results
  have hlen : (batchAggregate results).failed.length = 0 ↔ ∀ r ∈ results, r.success = true := by
    rw [hfailed]
    simp [List.length_eq_zero, List.filter_eq_nil_iff]
  refine ⟨?_, ?_, rfl, ?_⟩
  · unfold streamingFinalStatus
    by_cases h : (batchAggregate results).failed.length = 0
    · rw [if_pos h]; simpa using hlen.mp h
    · simp only [h, if_false]
      constructor
      · intro hcon; cases hcon
      · intro hall; exact absurd (hlen.mpr hall) h
  · unfold streamingFinalStatus
    by_cases h : (batchAggregate results).failed.length = 0
    · simp only [h, if_true]
      constructor
      · intro hcon; cases hcon
      · rintro ⟨r, hr, hrf⟩
        have := hlen.mp h r hr
        rw [this] at hrf; cases hrf
    · simp only [h, if_false, true_iff]
      by_contra hnone
      push_neg at hnone
      exact h (hlen.mpr (by intro r hr; have := hnone r hr; simpa using this))
  · simp [processJobFinalUpdate, batchAggregate_successful]

/-- C8: over every completion order and at every point of the batch loop
(`process_file_batch` / `process_file_batch_streaming` completion loops and
the `_process_job_async` final update), `processed` never exceeds the
number of files (`total_files`), and successful + failed = processed —
in particular in the terminal job row. -/
theorem C8_progress_invariant (job : UploadJob) (results : List FileResult) (now k : Nat)
    (hk : k ≤ results.length) :
    (batchAggregate (results.take k)).totalProcessed
        ≤ (setTotalFiles job results.length).total_files ∧
      (batchAggregate (results.take k)).successful.length
          + (batchAggregate (results.take k)).failed.length
        = (batchAggregate (results.take k)).totalProcessed ∧
      (processJobFinalUpdate (setTotalFiles job results.length) (batchAggregate results)
          now).processed_files
        ≤ (processJobFinalUpdate (setTotalFiles job results.length) (batchAggregate results)
          now).total_files ∧
      (processJobFinalUpdate (setTotalFiles job results.length) (batchAggregate results)
            now).successful_files
          + (processJobFinalUpdate (setTotalFiles job results.length) (batchAggregate results)
            now).failed_files
        = (processJobFinalUpdate (setTotalFiles job results.length) (batchAggregate results)
          now).processed_files := by
  have htake : (results.take k).length = k := by
    rw [List.length_take]; omega
  refine ⟨?_, ?_, ?_, ?_⟩
  · rw [batchAggregate_totalProcessed, htake]
    simpa [setTotalFiles] using hk
  · rw [batchAggregate_counts, batchAggregate_totalProcessed]
  · simp [processJobFinalUpdate, setTotalFiles, batchAggregate_totalProcessed]
  · simp [processJobFinalUpdate, batchAggregate_counts, batchAggregate_totalProcessed]

/-- Witness for `C8_progress_invariant` at a concrete two-file batch
observed after its first completion. -/
theorem C8_progress_invariant_witness :
    (1 ≤ ([⟨"a.txt", true, ""⟩, ⟨"b.txt", false, "boom"⟩] : List FileResult).length) ∧
      ((batchAggregate (([⟨"a.txt", true, ""⟩, ⟨"b.txt", false, "boom"⟩] :
            List FileResult).take 1)).totalProcessed
          ≤ (setTotalFiles sampleJob
            ([⟨"a.txt", true, ""⟩, ⟨"b.txt", false, "boom"⟩] : List FileResult).length).total_files ∧
        (batchAggregate (([⟨"a.txt", true, ""⟩, ⟨"b.txt", false, "boom"⟩] :
              List FileResult).take 1)).successful.length
            + (batchAggregate (([⟨"a.txt", true, ""⟩, ⟨"b.txt", false, "boom"⟩] :
              List FileResult).take 1)).failed.length
          = (batchAggregate (([⟨"a.txt", true, ""⟩, ⟨"b.txt", false, "boom"⟩] :
            List FileResult).take 1)).totalProcessed ∧
        (processJobFinalUpdate (setTotalFiles sampleJob
              ([⟨"a.txt", true, ""⟩, ⟨"b.txt", false, "boom"⟩] : List FileResult).length)
            (batchAggregate [⟨"a.txt", true, ""⟩, ⟨"b.txt", false, "boom"⟩])
            7).processed_files
          ≤ (processJobFinalUpdate (setTotalFiles sampleJob
              ([⟨"a.txt", true, ""⟩, ⟨"b.txt", false, "boom"⟩] : List FileResult).length)
            (batchAggregate [⟨"a.txt", true, ""⟩, ⟨"b.txt", false, "boom"⟩])
            7).total_files ∧
        (processJobFinalUpdate (setTotalFiles sampleJob
                ([⟨"a.txt", true, ""⟩, ⟨"b.txt", false, "boom"⟩] : List FileResult).length)
              (batchAggregate [⟨"a.txt", true, ""⟩, ⟨"b.txt", false, "boom"⟩])
              7).successful_files
            + (processJobFinalUpdate (setTotalFiles sampleJob
                ([⟨"a.txt", true, ""⟩, ⟨"b.txt", false, "boom"⟩] : List FileResult).length)
              (batchAggregate [⟨"a.txt", true, ""⟩, ⟨"b.txt", false, "boom"⟩])
              7).failed_files
          = (processJobFinalUpdate (setTotalFiles sampleJob
              ([⟨"a.txt", true, ""⟩, ⟨"b.txt", false, "boom"⟩] : List FileResult).length)
            (batchAggregate [⟨"a.txt", true, ""⟩, ⟨"b.txt", false, "boom"⟩])
            7).processed_files) :=
  ⟨by decide, C8_progress_invariant sampleJob [⟨"a.txt", true, ""⟩, ⟨"b.txt", false, "boom"⟩]
    7 1 (by decide)⟩

/-! ## Job progress percentages (claim C3)

Two different formulas compute the externally-reported percentage:
`UploadJob.to_dict` (`app/models/upload_jobs.py` lines 63–75) switches
between the processed-ratio and the success-ratio depending on the status,
while `UploadManager.get_job_status` (`upload_manager_fixed.py` lines
294–305) — the function behind the `GET .../upload-jobs/{job_id}/status/`
endpoint — always reports the processed-ratio.  Percentages are modelled
over `ℚ`; Python `round(x, 1)` rounds half to even at one decimal. -/

/-- Round half to even, as Python `round` does on exactly representable
values. -/
def roundHalfEvenZ (q : ℚ) : ℤ :=
  if q - ⌊q⌋ < 1/2 then ⌊q⌋
  else if 1/2 < q - ⌊q⌋ then ⌊q⌋ + 1
  else if ⌊q⌋ % 2 = 0 then ⌊q⌋ else ⌊q⌋ + 1

/-- Python `round(x, 1)`. -/
def pyRound1 (q : ℚ) : ℚ := (roundHalfEvenZ (q * 10) : ℚ) / 10

/-- `UploadJob.to_dict`'s `progress.percentage` (`app/models/upload_jobs.py`
lines 68–74): processed-ratio while the status string is "processing" (and
`total_files > 0`), else success-ratio (and 0 when `total_files = 0`),
rounded to one decimal. -/
def toDictPercentage (job : UploadJob) : ℚ :=
  pyRound1 (if job.status = JobStatus.processing ∧ 0 < job.total_files then
      (job.processed_files : ℚ) / (job.total_files : ℚ) * 100
    else if 0 < job.total_files then
      (job.successful_files : ℚ) / (job.total_files : ℚ) * 100
    else 0)

/-- `UploadManager.get_job_status`'s `progress.percentage`
(`upload_manager_fixed.py` line 304): the processed-ratio whenever
`total_files` is truthy, with no dependence on the job status. -/
def getJobStatusPercentage (job : UploadJob) : ℚ :=
  if job.total_files ≠ 0 then (job.processed_files : ℚ) / (job.total_files : ℚ) * 100 else 0

/-- A terminal job whose run had one success out of two files, used to
separate the two percentage formulas. -/
def terminalJobC3 : UploadJob :=
  { id := 2, job_id := "upload_1700000001_ef567890", collection_id := 1
    status := JobStatus.completed, total_files := 2, processed_files := 2
    successful_files := 1, failed_files := 1, started_at := some 3
    completed_at := some 9, error_log := ["boom"] }

/-- C3 counterexample: for a terminal (`completed`) job with 2 processed
and 1 successful out of 2 files, the status endpoint
(`UploadManager.get_job_status`) reports 100, not the claimed
`successful/total · 100 = 50`: the endpoint's percentage does not switch to
the success-ratio in terminal states. -/
theorem C3_counterexample :
    terminalJobC3.status = JobStatus.completed ∧
      getJobStatusPercentage terminalJobC3 = 100 ∧
      (terminalJobC3.successful_files : ℚ) / (terminalJobC3.total_files : ℚ) * 100 = 50 ∧
      getJobStatusPercentage terminalJobC3
        ≠ (terminalJobC3.successful_files : ℚ) / (terminalJobC3.total_files : ℚ) * 100 := by
  refine ⟨rfl, ?_, ?_, ?_⟩ <;> norm_num [getJobStatusPercentage, terminalJobC3]

/-- C3 (amended): the processed-ratio / success-ratio switch exists only in
`UploadJob.to_dict`; the job-status service behind the status endpoint
(`UploadManager.get_job_status`) reports `processed/total · 100` regardless
of the job status. -/
theorem C3_percentage_formulas (job : UploadJob) (h : 0 < job.total_files) :
    getJobStatusPercentage job
        = (job.processed_files : ℚ) / (job.total_files : ℚ) * 100 ∧
      (job.status = JobStatus.processing →
        toDictPercentage job
          = pyRound1 ((job.processed_files : ℚ) / (job.total_files : ℚ) * 100)) ∧
      (job.status ≠ JobStatus.processing →
        toDictPercentage job
          = pyRound1 ((job.successful_files : ℚ) / (job.total_files : ℚ) * 100)) := by
  refine ⟨?_, ?_, ?_⟩
  · have : job.total_files ≠ 0 := Nat.pos_iff_ne_zero.mp h
    simp [getJobStatusPercentage, this]
  · intro hs
    simp [toDictPercentage, hs, h]
  · intro hs
    simp [toDictPercentage, hs, h]

/-- Witness for `C3_percentage_formulas` at the concrete terminal job. -/
theorem C3_percentage_formulas_witness :
    0 < terminalJobC3.total_files ∧
      (getJobStatusPercentage terminalJobC3
          = (terminalJobC3.processed_files : ℚ) / (terminalJobC3.total_files : ℚ) * 100 ∧
        (terminalJobC3.status = JobStatus.processing →
          toDictPercentage terminalJobC3
            = pyRound1
              ((terminalJobC3.processed_files : ℚ) / (terminalJobC3.total_files : ℚ) * 100)) ∧
        (terminalJobC3.status ≠ JobStatus.processing →
          toDictPercentage terminalJobC3
            = pyRound1
              ((terminalJobC3.successful_files : ℚ) / (terminalJobC3.total_files : ℚ) * 100))) :=
  ⟨by decide, C3_percentage_formulas terminalJobC3 (by decide)⟩

/-! ## Folder hierarchy builder (claims C6 and C9)

`FolderHierarchyService.create_folder_structure`
(`app/models/folder_hierarchy.py` lines 100–167): rows of the
`folder_nodes` table become `FolderNodeR` records, the table becomes a
`FolderStore` (row list plus the auto-increment counter assigned by
`db.flush()`), and the `folder_cache` dictionary becomes an association
list.  The inner `for i, part in enumerate(path_parts)` loop is
`walkParts`. -/

/-- A row of the `folder_nodes` table (the columns written by
`create_folder_structure`). -/
structure FolderNodeR where
  id : Nat
  collection_id : Nat
  upload_job_id : Option Nat
  name : String
  full_path : String
  parent_id : Option Nat
  depth : Nat
deriving DecidableEq, Repr

/-- The `folder_nodes` table plus the auto-increment id counter. -/
structure FolderStore where
  nodes : List FolderNodeR
  nextId : Nat
deriving DecidableEq, Repr

/-- Python `str.split(sep)` for a one-character separator. -/
def pySplit (sep : Char) (s : String) : List String :=
  (splitCharList sep s.data).map fun l => ⟨l⟩

/-- `[part for part in path.split('/') if part]`
(`folder_hierarchy.py` line 120). -/
def partsOfPath (p : String) : List String :=
  (pySplit '/' p).filter fun s => s ≠ ""

/-- `current_path = f"{current_path}/{part}" if current_path else part`
(`folder_hierarchy.py` line 129). -/
def joinStep (cur part : String) : String :=
  if cur = "" then part else cur ++ "/" ++ part

/-- Folding `joinStep` over a list of parts (the value of `current_path`
after consuming those parts, starting from `base`). -/
def joinPath (base : String) (parts : List String) : String :=
  parts.foldl joinStep base

/-- The state threaded through one `create_folder_structure` call: the
store, the per-call `folder_cache`, and the `created_folders` list. -/
structure FolderBuildState where
  store : FolderStore
  cache : List (String × FolderNodeR)
  created : List FolderNodeR
deriving DecidableEq, Repr

/-- `current_path in folder_cache` / `folder_cache[current_path]`. -/
def cacheFind? (cache : List (String × FolderNodeR)) (p : String) : Option FolderNodeR :=
  (cache.find? fun e => e.1 == p).map fun e => e.2

/-- The `select(FolderNode).where(collection_id == ..., full_path == ...)`
existence query (`folder_hierarchy.py` lines 137–143). -/
def dbFind? (store : FolderStore) (cid : Nat) (p : String) : Option FolderNodeR :=
  store.nodes.find? fun n => n.collection_id == cid && n.full_path == p

/-- The inner loop of `create_folder_structure` (`folder_hierarchy.py`
lines 128–164): for each path segment, extend `current_path`, then reuse
the cached node, or the node found in the table, or create a new node
keyed by `(collection_id, full_path)` with `depth = i` and the previous
segment's node as parent. -/
def walkParts (cid : Nat) (jobId : Option Nat) :
    List String → String → Option Nat → Nat → FolderBuildState → FolderBuildState
  | [], _, _, _, st => st
  | part :: rest, curPath, parentId, i, st =>
    let cp := joinStep curPath part
    match cacheFind? st.cache cp with
    | some node => walkParts cid jobId rest cp (some node.id) (i + 1) st
    | none =>
      match dbFind? st.store cid cp with
      | some node =>
        walkParts cid jobId rest cp (some node.id) (i + 1)
          { st with cache := st.cache ++ [(cp, node)] }
      | none =>
        let node : FolderNodeR :=
          { id := st.store.nextId, collection_id := cid, upload_job_id := jobId
            name := part, full_path := cp, parent_id := parentId, depth := i }
        walkParts cid jobId rest cp (some node.id) (i + 1)
          { store := { nodes := st.store.nodes ++ [node], nextId := st.store.nextId + 1 }
            cache := st.cache ++ [(cp, node)]
            created := st.created ++ [node] }

/-- The body of the outer `for path in sorted_paths` loop
(`folder_hierarchy.py` lines 116–164): skip empty or already-cached paths
and paths with no segments, otherwise walk the path's segments from the
root. -/
def createStep (cid : Nat) (jobId : Option Nat) (st : FolderBuildState) (path : String) :
    FolderBuildState :=
  if path = "" ∨ (cacheFind? st.cache path).isSome then st
  else if partsOfPath path = [] then st
  else walkParts cid jobId (partsOfPath path) "" none 0 st

/-- `FolderHierarchyService.create_folder_structure`
(`folder_hierarchy.py` lines 100–167): iterate over `sorted(set(paths))`
with a fresh per-call cache; returns the updated table and the
`created_folders` list. -/
def create_folder_structure (cid : Nat) (folder_paths : List String) (jobId : Option Nat)
    (store : FolderStore) : FolderStore × List FolderNodeR :=
  let sorted_paths := List.insertionSort (fun a b : String => a ≤ b) folder_paths.dedup
  let final := sorted_paths.foldl (createStep cid jobId) ⟨store, [], []⟩
  (final.store, final.created)

/-- There is a row keyed by `(collection_id, full_path) = (cid, p)` in the
table (the key `create_folder_structure` deduplicates on). -/
def NodeEx (store : FolderStore) (cid : Nat) (p : String) : Prop :=
  ∃ n ∈ store.nodes, n.collection_id = cid ∧ n.full_path = p

/-- A usable path segment: nonempty and free of the separator. -/
def GoodPart (p : String) : Prop := p ≠ "" ∧ '/' ∉ p.data

/-- Nodes exist for every cumulative `current_path` reached while walking
`parts` starting from `base`. -/
def AllPrefixesEx (store : FolderStore) (cid : Nat) : String → List String → Prop
  | _, [] => True
  | base, part :: rest =>
    NodeEx store cid (joinStep base part) ∧ AllPrefixesEx store cid (joinStep base part) rest

/-- Invariant of the per-call `folder_cache`: every entry holds a row of
the table under its own `full_path` key, and all cumulative prefixes of
that key already have rows. -/
def CacheOK (cid : Nat) (st : FolderBuildState) : Prop :=
  ∀ e ∈ st.cache, e.2.collection_id = cid ∧ e.2.full_path = e.1 ∧ e.2 ∈ st.store.nodes ∧
    AllPrefixesEx st.store cid "" (partsOfPath e.1)

theorem cacheFind?_isSome_iff (cache : List (String × FolderNodeR)) (p : String) :
    (cacheFind? cache p).isSome ↔ ∃ e ∈ cache, e.1 = p := by
  simp [cacheFind?, List.find?_isSome]

theorem cacheFind?_eq_some_mem (cache : List (String × FolderNodeR)) (p : String)
    (node : FolderNodeR) (h : cacheFind? cache p = some node) : (p, node) ∈ cache := by
  simp only [cacheFind?, Option.map_eq_some'] at h
  obtain ⟨e, he, hnode⟩ := h
  have hmem := List.mem_of_find?_eq_some he
  have hkey : e.1 = p := by simpa using List.find?_some he
  have : e = (p, node) := by
    cases e; simp_all
  exact this ▸ hmem

theorem dbFind?_eq_some (store : FolderStore) (cid : Nat) (p : String) (n : FolderNodeR)
    (h : dbFind? store cid p = some n) :
    n ∈ store.nodes ∧ n.collection_id = cid ∧ n.full_path = p := by
  refine ⟨List.mem_of_find?_eq_some h, ?_, ?_⟩
  · have := List.find?_some h
    simp at this
    exact this.1
  · have := List.find?_some h
    simp at this
    exact this.2

theorem dbFind?_isSome_of_nodeEx (store : FolderStore) (cid : Nat) (p : String)
    (h : NodeEx store cid p) : (dbFind? store cid p).isSome := by
  obtain ⟨n, hn, h1, h2⟩ := h
  rw [dbFind?, List.find?_isSome]
  exact ⟨n, hn, by simp [h1, h2]⟩

theorem nodeEx_mono {store store' : FolderStore} {cid : Nat} {p : String}
    (hΔ : ∃ Δ, store'.nodes = store.nodes ++ Δ) (h : NodeEx store cid p) :
    NodeEx store' cid p := by
  obtain ⟨Δ, hΔ⟩ := hΔ
  obtain ⟨n, hn, h1, h2⟩ := h
  exact ⟨n, by rw [hΔ]; exact List.mem_append_left Δ hn, h1, h2⟩

theorem allPrefixesEx_mono {store store' : FolderStore} {cid : Nat}
    (hΔ : ∃ Δ, store'.nodes = store.nodes ++ Δ) :
    ∀ {base : String} {l : List String},
      AllPrefixesEx store cid base l → AllPrefixesEx store' cid base l := by
  intro base l
  induction l generalizing base with
  | nil => intro _; trivial
  | cons p rest ih =>
    intro h
    exact ⟨nodeEx_mono hΔ h.1, ih h.2⟩

theorem allPrefixesEx_append (store : FolderStore) (cid : Nat) (base : String)
    (xs ys : List String) :
    AllPrefixesEx store cid base (xs ++ ys)
      ↔ AllPrefixesEx store cid base xs ∧ AllPrefixesEx store cid (joinPath base xs) ys := by
  induction xs generalizing base with
  | nil => simp [AllPrefixesEx, joinPath]
  | cons p rest ih =>
    simp only [List.cons_append, AllPrefixesEx, joinPath, List.foldl_cons]
    rw [show rest.append ys = rest ++ ys from rfl, ih (joinStep base p)]
    simp only [joinPath]
    tauto

theorem joinPath_concat (base : String) (parts : List String) (p : String) :
    joinPath base (parts ++ [p]) = joinStep (joinPath base parts) p := by
  simp [joinPath, List.foldl_append]

theorem partsOfPath_empty : partsOfPath "" = [] := by decide

theorem partsOfPath_joinStep (cur part : String) (h : GoodPart part) :
    partsOfPath (joinStep cur part) = partsOfPath cur ++ [part] := by
  obtain ⟨hne, hnmem⟩ := h
  by_cases hc : cur = ""
  · subst hc
    rw [joinStep, if_pos rfl, partsOfPath_empty]
    rw [partsOfPath, pySplit, splitCharList_of_not_mem '/' part.data hnmem]
    simp [hne]
  · rw [joinStep, if_neg hc]
    have hdata : (cur ++ "/" ++ part).data = cur.data ++ ('/' :: part.data) := by
      simp [String.data_append]
    rw [partsOfPath, pySplit, hdata, splitCharList_append_sep,
      splitCharList_of_not_mem '/' part.data hnmem]
    simp only [List.map_append, List.filter_append, List.map_cons, List.map_nil]
    rw [partsOfPath, pySplit]
    simp [hne]

theorem partsOfPath_joinPath (base : String) (parts : List String)
    (h : ∀ p ∈ parts, GoodPart p) :
    partsOfPath (joinPath base parts) = partsOfPath base ++ parts := by
  induction parts generalizing base with
  | nil => simp [joinPath]
  | cons p rest ih =>
    have hp : GoodPart p := h p (List.mem_cons_self p rest)
    have hrest : ∀ q ∈ rest, GoodPart q := fun q hq => h q (List.mem_cons_of_mem p hq)
    rw [joinPath, List.foldl_cons]
    have := ih (joinStep base p) hrest
    rw [joinPath] at this
    rw [this, partsOfPath_joinStep base p hp]
    simp

theorem goodParts_of_partsOfPath (p : String) : ∀ q ∈ partsOfPath p, GoodPart q := by
  intro q hq
  rw [partsOfPath] at hq
  have hne : q ≠ "" := by
    have := List.of_mem_filter hq
    simpa using this
  have hqmem : q ∈ pySplit '/' p := List.mem_of_mem_filter hq
  rw [pySplit] at hqmem
  obtain ⟨l, hl, hql⟩ := List.mem_map.mp hqmem
  refine ⟨hne, ?_⟩
  have := not_mem_of_mem_splitCharList '/' p.data l hl
  rw [← hql]
  simpa using this

theorem walkParts_cons_cache (cid : Nat) (jobId : Option Nat) (part : String)
    (rest : List String) (curPath : String) (parentId : Option Nat) (i : Nat)
    (st : FolderBuildState) (node : FolderNodeR)
    (h : cacheFind? st.cache (joinStep curPath part) = some node) :
    walkParts cid jobId (part :: rest) curPath parentId i st
      = walkParts cid jobId rest (joinStep curPath part) (some node.id) (i + 1) st := by
  simp only [walkParts, h]

theorem walkParts_cons_db (cid : Nat) (jobId : Option Nat) (part : String)
    (rest : List String) (curPath : String) (parentId : Option Nat) (i : Nat)
    (st : FolderBuildState) (node : FolderNodeR)
    (h1 : cacheFind? st.cache (joinStep curPath part) = none)
    (h2 : dbFind? st.store cid (joinStep curPath part) = some node) :
    walkParts cid jobId (part :: rest) curPath parentId i st
      = walkParts cid jobId rest (joinStep curPath part) (some node.id) (i + 1)
          { st with cache := st.cache ++ [(joinStep curPath part, node)] } := by
  simp only [walkParts, h1, h2]

/-- The row created by `walkParts` for a fresh `(collection_id,
full_path)` key. -/
def newNodeFor (cid : Nat) (jobId : Option Nat) (part cp : String) (parentId : Option Nat)
    (i : Nat) (nid : Nat) : FolderNodeR :=
  { id := nid, collection_id := cid, upload_job_id := jobId, name := part, full_path := cp,
    parent_id := parentId, depth := i }

theorem walkParts_cons_new (cid : Nat) (jobId : Option Nat) (part : String)
    (rest : List String) (curPath : String) (parentId : Option Nat) (i : Nat)
    (st : FolderBuildState)
    (h1 : cacheFind? st.cache (joinStep curPath part) = none)
    (h2 : dbFind? st.store cid (joinStep curPath part) = none) :
    walkParts cid jobId (part :: rest) curPath parentId i st
      = walkParts cid jobId rest (joinStep curPath part) (some st.store.nextId) (i + 1)
          { store :=
              { nodes := st.store.nodes ++
                  [newNodeFor cid jobId part (joinStep curPath part) parentId i st.store.nextId],
                nextId := st.store.nextId + 1 },
            cache := st.cache ++
              [(joinStep curPath part,
                newNodeFor cid jobId part (joinStep curPath part) parentId i st.store.nextId)],
            created := st.created ++
              [newNodeFor cid jobId part (joinStep curPath part) parentId i st.store.nextId] } := by
  simp only [walkParts, h1, h2, newNodeFor]

/-- Main soundness lemma for the inner loop of `create_folder_structure`:
walking the remaining `parts` after having established nodes for the
consumed segments `done` only appends rows, preserves the cache invariant,
establishes rows for every cumulative prefix, and every row it creates has
`depth + 1` equal to the number of segments of its `full_path`. -/
theorem walkParts_sound (cid : Nat) (jobId : Option Nat) (parts : List String) :
    ∀ (done : List String) (parentId : Option Nat) (st : FolderBuildState),
      (∀ p ∈ parts, GoodPart p) → (∀ p ∈ done, GoodPart p) →
      AllPrefixesEx st.store cid "" done → CacheOK cid st →
      (∃ Δ, (walkParts cid jobId parts (joinPath "" done) parentId done.length st).store.nodes
          = st.store.nodes ++ Δ) ∧
      CacheOK cid (walkParts cid jobId parts (joinPath "" done) parentId done.length st) ∧
      AllPrefixesEx (walkParts cid jobId parts (joinPath "" done) parentId done.length st).store
        cid "" (done ++ parts) ∧
      (∃ Γ, (walkParts cid jobId parts (joinPath "" done) parentId done.length st).created
            = st.created ++ Γ ∧
          ∀ node ∈ Γ, node.depth + 1 = (partsOfPath node.full_path).length) := by
  induction parts with
  | nil =>
    intro done parentId st _ _ hex hcache
    exact ⟨⟨[], by simp [walkParts]⟩, by simpa [walkParts] using hcache,
      by simpa [walkParts] using hex, ⟨[], by simp [walkParts], by simp⟩⟩
  | cons part rest ih =>
    intro done parentId st hparts hdone hex hcache
    have hpart : GoodPart part := hparts part (List.mem_cons_self part rest)
    have hrest : ∀ p ∈ rest, GoodPart p := fun p hp => hparts p (List.mem_cons_of_mem part hp)
    have hdone' : ∀ p ∈ done ++ [part], GoodPart p := by
      intro p hp
      rcases List.mem_append.mp hp with hp | hp
      · exact hdone p hp
      · simp at hp; exact hp ▸ hpart
    have hjoin : joinStep (joinPath "" done) part = joinPath "" (done ++ [part]) :=
      (joinPath_concat "" done part).symm
    have hlen : done.length + 1 = (done ++ [part]).length := by simp
    have hpartscp : partsOfPath (joinPath "" (done ++ [part])) = done ++ [part] := by
      rw [partsOfPath_joinPath "" (done ++ [part]) hdone', partsOfPath_empty, List.nil_append]
    have hassoc : (done ++ [part]) ++ rest = done ++ (part :: rest) := by simp
    have hsingle : ∀ (store : FolderStore),
        NodeEx store cid (joinStep (joinPath "" done) part) →
        AllPrefixesEx store cid (joinPath "" done) [part] := by
      intro store hne
      exact ⟨hne, trivial⟩
    rcases hc : cacheFind? st.cache (joinStep (joinPath "" done) part) with _ | node
    · rcases hd : dbFind? st.store cid (joinStep (joinPath "" done) part) with _ | node
      · -- no cached and no stored node: create a new row
        rw [walkParts_cons_new cid jobId part rest _ parentId done.length st hc hd]
        set node : FolderNodeR :=
          newNodeFor cid jobId part (joinStep (joinPath "" done) part) parentId done.length
            st.store.nextId with hnodedef
        set st₂ : FolderBuildState :=
          { store := { nodes := st.store.nodes ++ [node], nextId := st.store.nextId + 1 }
            cache := st.cache ++ [(joinStep (joinPath "" done) part, node)]
            created := st.created ++ [node] } with hst₂
        have hmono₂ : ∃ Δ, st₂.store.nodes = st.store.nodes ++ Δ := ⟨[node], rfl⟩
        have hnodeEx : NodeEx st₂.store cid (joinStep (joinPath "" done) part) :=
          ⟨node, by simp [hst₂], rfl, rfl⟩
        have hex₂ : AllPrefixesEx st₂.store cid "" (done ++ [part]) := by
          rw [allPrefixesEx_append]
          exact ⟨allPrefixesEx_mono hmono₂ hex, hsingle st₂.store hnodeEx⟩
        have hcache₂ : CacheOK cid st₂ := by
          intro e he
          rcases List.mem_append.mp he with he | he
          · obtain ⟨e1, e2, e3, e4⟩ := hcache e he
            exact ⟨e1, e2, by simp [hst₂]; exact Or.inl e3, allPrefixesEx_mono hmono₂ e4⟩
          · simp at he
            subst he
            refine ⟨rfl, rfl, by simp [hst₂], ?_⟩
            simp only [hjoin, hpartscp]
            exact hex₂
        have hthis := ih (done ++ [part]) (some node.id) st₂ hrest hdone' hex₂ hcache₂
        rw [← hjoin, ← hlen, show node.id = st.store.nextId from rfl] at hthis
        obtain ⟨⟨Δ, hΔ⟩, hcache', hex', ⟨Γ, hΓ, hΓdepth⟩⟩ := hthis
        refine ⟨⟨[node] ++ Δ, by rw [hΔ]; simp [hst₂]⟩, hcache', ?_, ?_⟩
        · rwa [hassoc] at hex'
        · refine ⟨[node] ++ Γ, by rw [hΓ]; simp [hst₂], ?_⟩
          intro n hn
          rcases List.mem_append.mp hn with hn | hn
          · simp at hn
            subst hn
            have : node.full_path = joinPath "" (done ++ [part]) := hjoin
            rw [show node.depth = done.length from rfl, this, hpartscp]
            simp
          · exact hΓdepth n hn
      · -- not cached, but a row with this (collection_id, full_path) exists
        rw [walkParts_cons_db cid jobId part rest _ parentId done.length st node hc hd]
        obtain ⟨hmem, hcid, hpath⟩ := dbFind?_eq_some st.store cid _ node hd
        set st₁ : FolderBuildState :=
          { st with cache := st.cache ++ [(joinStep (joinPath "" done) part, node)] } with hst₁
        have hnodeEx : NodeEx st.store cid (joinStep (joinPath "" done) part) :=
          ⟨node, hmem, hcid, hpath⟩
        have hex₁ : AllPrefixesEx st.store cid "" (done ++ [part]) := by
          rw [allPrefixesEx_append]
          exact ⟨hex, hsingle st.store hnodeEx⟩
        have hcache₁ : CacheOK cid st₁ := by
          intro e he
          rcases List.mem_append.mp he with he | he
          · exact hcache e he
          · simp at he
            subst he
            refine ⟨hcid, hpath, hmem, ?_⟩
            simp only [hjoin, hpartscp]
            exact hex₁
        have hthis := ih (done ++ [part]) (some node.id) st₁ hrest hdone' hex₁ hcache₁
        rw [← hjoin, ← hlen] at hthis
        obtain ⟨⟨Δ, hΔ⟩, hcache', hex', ⟨Γ, hΓ, hΓdepth⟩⟩ := hthis
        refine ⟨⟨Δ, hΔ⟩, hcache', ?_, ⟨Γ, hΓ, hΓdepth⟩⟩
        rwa [hassoc] at hex'
    · -- cache hit
      rw [walkParts_cons_cache cid jobId part rest _ parentId done.length st node hc]
      obtain ⟨hcid, hpath, hmem, _⟩ := hcache _ (cacheFind?_eq_some_mem st.cache _ node hc)
      have hnodeEx : NodeEx st.store cid (joinStep (joinPath "" done) part) :=
        ⟨node, hmem, hcid, hpath⟩
      have hex₁ : AllPrefixesEx st.store cid "" (done ++ [part]) := by
        rw [allPrefixesEx_append]
        exact ⟨hex, hsingle st.store hnodeEx⟩
      have hthis := ih (done ++ [part]) (some node.id) st hrest hdone' hex₁ hcache
      rw [← hjoin, ← hlen] at hthis
      obtain ⟨⟨Δ, hΔ⟩, hcache', hex', ⟨Γ, hΓ, hΓdepth⟩⟩ := hthis
      refine ⟨⟨Δ, hΔ⟩, hcache', ?_, ⟨Γ, hΓ, hΓdepth⟩⟩
      rwa [hassoc] at hex'

/-- If every cumulative prefix already has a row, the inner loop only
reads: the table and the created list are untouched. -/
theorem walkParts_no_create (cid : Nat) (jobId : Option Nat) (parts : List String) :
    ∀ (curPath : String) (parentId : Option Nat) (i : Nat) (st : FolderBuildState),
      AllPrefixesEx st.store cid curPath parts →
      (walkParts cid jobId parts curPath parentId i st).store = st.store ∧
      (walkParts cid jobId parts curPath parentId i st).created = st.created := by
  induction parts with
  | nil => intro curPath parentId i st _; exact ⟨rfl, rfl⟩
  | cons part rest ih =>
    intro curPath parentId i st hex
    obtain ⟨hne, hrest⟩ := hex
    rcases hc : cacheFind? st.cache (joinStep curPath part) with _ | node
    · rcases hd : dbFind? st.store cid (joinStep curPath part) with _ | node
      · have := dbFind?_isSome_of_nodeEx st.store cid _ hne
        rw [hd] at this
        cases this
      · rw [walkParts_cons_db cid jobId part rest curPath parentId i st node hc hd]
        exact ih (joinStep curPath part) (some node.id) (i + 1)
          { st with cache := st.cache ++ [(joinStep curPath part, node)] } hrest
    · rw [walkParts_cons_cache cid jobId part rest curPath parentId i st node hc]
      exact ih (joinStep curPath part) (some node.id) (i + 1) st hrest

/-- Soundness of the outer loop of `create_folder_structure`: it only
appends rows, keeps the cache invariant, leaves every processed path with
rows for all its cumulative prefixes, and every created row satisfies the
depth/segment-count law. -/
theorem createFold_sound (cid : Nat) (jobId : Option Nat) (paths : List String) :
    ∀ st : FolderBuildState, CacheOK cid st →
      (∃ Δ, (paths.foldl (createStep cid jobId) st).store.nodes = st.store.nodes ++ Δ) ∧
      CacheOK cid (paths.foldl (createStep cid jobId) st) ∧
      (∀ p ∈ paths, p = "" ∨ partsOfPath p = []
        ∨ AllPrefixesEx (paths.foldl (createStep cid jobId) st).store cid "" (partsOfPath p)) ∧
      (∃ Γ, (paths.foldl (createStep cid jobId) st).created = st.created ++ Γ ∧
        ∀ node ∈ Γ, node.depth + 1 = (partsOfPath node.full_path).length) := by
  induction paths with
  | nil =>
    intro st hcache
    exact ⟨⟨[], by simp⟩, by simpa using hcache, by simp, ⟨[], by simp, by simp⟩⟩
  | cons p rest ih =>
    intro st hcache
    rw [List.foldl_cons]
    by_cases hskip : p = "" ∨ (cacheFind? st.cache p).isSome
    · have hstep : createStep cid jobId st p = st := by rw [createStep, if_pos hskip]
      rw [hstep]
      obtain ⟨hΔ, hcache', hall, hΓ⟩ := ih st hcache
      refine ⟨hΔ, hcache', ?_, hΓ⟩
      intro q hq
      rcases List.mem_cons.mp hq with hq | hq
      · subst hq
        rcases hskip with hskip | hskip
        · exact Or.inl hskip
        · rcases ho : cacheFind? st.cache q with _ | node
          · rw [ho] at hskip; cases hskip
          · obtain ⟨_, _, _, hpx⟩ := hcache _ (cacheFind?_eq_some_mem st.cache q node ho)
            exact Or.inr (Or.inr (allPrefixesEx_mono hΔ hpx))
      · exact hall q hq
    · by_cases hparts : partsOfPath p = []
      · have hstep : createStep cid jobId st p = st := by
          rw [createStep, if_neg hskip, if_pos hparts]
        rw [hstep]
        obtain ⟨hΔ, hcache', hall, hΓ⟩ := ih st hcache
        refine ⟨hΔ, hcache', ?_, hΓ⟩
        intro q hq
        rcases List.mem_cons.mp hq with hq | hq
        · subst hq; exact Or.inr (Or.inl hparts)
        · exact hall q hq
      · have hstep : createStep cid jobId st p
            = walkParts cid jobId (partsOfPath p) "" none 0 st := by
          rw [createStep, if_neg hskip, if_neg hparts]
        rw [hstep]
        have hgood : ∀ q ∈ partsOfPath p, GoodPart q := goodParts_of_partsOfPath p
        have hwalk := walkParts_sound cid jobId (partsOfPath p) [] none st hgood
          (by simp) trivial hcache
        simp only [joinPath, List.foldl_nil, List.length_nil, List.nil_append] at hwalk
        obtain ⟨hΔ₁, hcache₁, hex₁, ⟨Γ₁, hΓ₁, hΓ₁d⟩⟩ := hwalk
        set st₁ := walkParts cid jobId (partsOfPath p) "" none 0 st with hst₁
        obtain ⟨hΔ₂, hcache₂, hall₂, ⟨Γ₂, hΓ₂, hΓ₂d⟩⟩ := ih st₁ hcache₁
        refine ⟨?_, hcache₂, ?_, ?_⟩
        · obtain ⟨Δ₁, h₁⟩ := hΔ₁
          obtain ⟨Δ₂, h₂⟩ := hΔ₂
          exact ⟨Δ₁ ++ Δ₂, by rw [h₂, h₁, List.append_assoc]⟩
        · intro q hq
          rcases List.mem_cons.mp hq with hq | hq
          · subst hq
            exact Or.inr (Or.inr (allPrefixesEx_mono hΔ₂ hex₁))
          · exact hall₂ q hq
        · refine ⟨Γ₁ ++ Γ₂, by rw [hΓ₂, hΓ₁, List.append_assoc], ?_⟩
          intro node hn
          rcases List.mem_append.mp hn with hn | hn
          · exact hΓ₁d node hn
          · exact hΓ₂d node hn

/-- If every path in the list already has rows for all its cumulative
prefixes, the outer loop changes nothing. -/
theorem createFold_no_create (cid : Nat) (jobId : Option Nat) (paths : List String) :
    ∀ st : FolderBuildState,
      (∀ p ∈ paths, p = "" ∨ partsOfPath p = []
        ∨ AllPrefixesEx st.store cid "" (partsOfPath p)) →
      (paths.foldl (createStep cid jobId) st).store = st.store ∧
      (paths.foldl (createStep cid jobId) st).created = st.created := by
  induction paths with
  | nil => intro st _; exact ⟨rfl, rfl⟩
  | cons p rest ih =>
    intro st hx
    rw [List.foldl_cons]
    have hstep : (createStep cid jobId st p).store = st.store ∧
        (createStep cid jobId st p).created = st.created := by
      by_cases hskip : p = "" ∨ (cacheFind? st.cache p).isSome
      · rw [createStep, if_pos hskip]; exact ⟨rfl, rfl⟩
      · by_cases hparts : partsOfPath p = []
        · rw [createStep, if_neg hskip, if_pos hparts]; exact ⟨rfl, rfl⟩
        · rw [createStep, if_neg hskip, if_neg hparts]
          have hp := hx p (List.mem_cons_self p rest)
          rcases hp with hp | hp | hp
          · exact absurd (Or.inl hp) hskip
          · exact absurd hp hparts
          · exact walkParts_no_create cid jobId (partsOfPath p) "" none 0 st hp
    have hx' : ∀ q ∈ rest, q = "" ∨ partsOfPath q = []
        ∨ AllPrefixesEx (createStep cid jobId st p).store cid "" (partsOfPath q) := by
      intro q hq
      rcases hx q (List.mem_cons_of_mem p hq) with h | h | h
      · exact Or.inl h
      · exact Or.inr (Or.inl h)
      · exact Or.inr (Or.inr (hstep.1.symm ▸ h))
    obtain ⟨h1, h2⟩ := ih (createStep cid jobId st p) hx'
    exact ⟨h1.trans hstep.1, h2.trans hstep.2⟩

/-- C6: calling `FolderHierarchyService.create_folder_structure` twice in
a row with the same path set creates zero new folder nodes on the second
call, and leaves the table (rows and id counter) unchanged: every existing
`(collection_id, full_path)` node is reused, never duplicated. -/
theorem C6_create_folder_structure_idempotent (cid : Nat) (paths : List String)
    (jobId jobId' : Option Nat) (store : FolderStore) :
    (create_folder_structure cid paths jobId'
        (create_folder_structure cid paths jobId store).1).2 = [] ∧
      (create_folder_structure cid paths jobId'
          (create_folder_structure cid paths jobId store).1).1
        = (create_folder_structure cid paths jobId store).1 := by
  set sorted := List.insertionSort (fun a b : String => a ≤ b) paths.dedup with hsorted
  have hcache0 : CacheOK cid ⟨store, [], []⟩ := by intro e he; cases he
  obtain ⟨_, _, hall, _⟩ := createFold_sound cid jobId sorted ⟨store, [], []⟩ hcache0
  set st₁ := sorted.foldl (createStep cid jobId) ⟨store, [], []⟩ with hst₁
  have hx : ∀ p ∈ sorted, p = "" ∨ partsOfPath p = []
      ∨ AllPrefixesEx (⟨st₁.store, [], []⟩ : FolderBuildState).store cid "" (partsOfPath p) :=
    hall
  obtain ⟨h1, h2⟩ := createFold_no_create cid jobId' sorted ⟨st₁.store, [], []⟩ hx
  constructor
  · show (sorted.foldl (createStep cid jobId') ⟨st₁.store, [], []⟩).created = []
    exact h2
  · show (sorted.foldl (createStep cid jobId') ⟨st₁.store, [], []⟩).store = st₁.store
    exact h1

/-- C9 counterexample: feeding the single path `a/b` to
`create_folder_structure` creates the node `a` with depth 0 although its
`full_path` has 1 segment (and `a/b` with depth 1 and 2 segments): the
stored depth is not the number of segments of the full path. -/
theorem C9_counterexample :
    ((create_folder_structure 1 ["a/b"] none ⟨[], 1⟩).2.map
        fun n => (n.full_path, n.depth)) = [("a", 0), ("a/b", 1)] ∧
      (partsOfPath "a").length = 1 ∧
      ¬ ((0 : Nat) = (partsOfPath "a").length) := by
  refine ⟨?_, by decide, by decide⟩
  decide

/-- C9 (amended): every folder node created by `create_folder_structure`
has `depth + 1` equal to the number of path segments of its `full_path`
(so depth counts from 0 at the root, matching the scenario's depths for
`a`, `a/b` and `a/c`). -/
theorem C9_depth_is_segment_count_minus_one (cid : Nat) (paths : List String)
    (jobId : Option Nat) (store : FolderStore) (node : FolderNodeR)
    (h : node ∈ (create_folder_structure cid paths jobId store).2) :
    node.depth + 1 = (partsOfPath node.full_path).length := by
  have hcache0 : CacheOK cid ⟨store, [], []⟩ := by intro e he; cases he
  obtain ⟨_, _, _, ⟨Γ, hΓ, hΓd⟩⟩ := createFold_sound cid jobId
    (List.insertionSort (fun a b : String => a ≤ b) paths.dedup) ⟨store, [], []⟩ hcache0
  have hmem : node ∈ Γ := by
    have : (create_folder_structure cid paths jobId store).2
        = ((List.insertionSort (fun a b : String => a ≤ b) paths.dedup).foldl
          (createStep cid jobId) ⟨store, [], []⟩).created := rfl
    rw [this, hΓ] at h
    simpa using h
  exact hΓd node hmem

/-- Witness for `C9_depth_is_segment_count_minus_one` at the node `a`
created for the path `a/b` in an empty store. -/
theorem C9_depth_witness :
    (⟨1, 1, none, "a", "a", none, 0⟩ : FolderNodeR)
        ∈ (create_folder_structure 1 ["a/b"] none ⟨[], 1⟩).2 ∧
      (⟨1, 1, none, "a", "a", none, 0⟩ : FolderNodeR).depth + 1
        = (partsOfPath (⟨1, 1, none, "a", "a", none, 0⟩ : FolderNodeR).full_path).length :=
  ⟨by decide, C9_depth_is_segment_count_minus_one 1 ["a/b"] none ⟨[], 1⟩ _ (by decide)⟩

/-! ## Text extraction chunker (claim C7)

`DocumentProcessor.create_chunks` and its helpers
(`app/services/text_processing.py` lines 476–567), over code-point lists.
`_clean_text` collapses whitespace runs (after which the `[\f\r]+` and
`\n+` substitutions see no matches, but they are modelled anyway);
`_split_into_sentences` splits on the regex `(?<=[.!?])\s+` and keeps only
segments whose trimmed length exceeds 10, re-appending a single space;
`create_chunks` accumulates sentences into chunks of at most
`max_chunk_size` characters seeded with `_get_overlap_text` of the
previous chunk.  The Python `TextChunk` also stores an md5 hash of its
text; the hash is not modelled (no claim concerns it).  Each produced
`ChunkRec` additionally records, as ghost data, the loop's `overlap_text`
seed (`""` for the first chunk) and the unstripped `current_chunk`. -/

/-- `_clean_text` (`text_processing.py` lines 529–543): collapse `\s+` to
a space, `[\f\r]+` and `\n+` to a newline, then strip. -/
def cleanTextL (l : List Char) : List Char :=
  pyStrip (collapseRuns (fun c => c = '\n') '\n'
    (collapseRuns (fun c => c = '\x0c' || c = '\r') '\n'
      (collapseRuns isPySpace ' ' l)))

/-- The `[.!?]` class of the sentence-splitting regex. -/
def isSentencePunct (c : Char) : Bool := c = '.' || c = '!' || c = '?'

/-- Whether the previous scanned character (head of the reversed
accumulator) is sentence punctuation — the regex lookbehind. -/
def headIsPunct : List Char → Bool
  | [] => false
  | c :: _ => isSentencePunct c

/-- `re.split(r'(?<=[.!?])\s+', text)` as a scanner: `some acc` is an open
segment (reversed), `none` means we are consuming a maximal whitespace
separator run. -/
def splitSentAux : Option (List Char) → List Char → List (List Char)
  | some acc, [] => [acc.reverse]
  | none, [] => [[]]
  | some acc, c :: rest =>
    if isPySpace c && headIsPunct acc then acc.reverse :: splitSentAux none rest
    else splitSentAux (some (c :: acc)) rest
  | none, c :: rest =>
    if isPySpace c then splitSentAux none rest else splitSentAux (some [c]) rest

/-- The raw segments of `_split_into_sentences`. -/
def splitSentenceSegments (l : List Char) : List (List Char) :=
  splitSentAux (some []) l

/-- `_split_into_sentences` (`text_processing.py` lines 545–553):
`[s.strip() + ' ' for s in sentences if len(s.strip()) > 10]`. -/
def sentencesOf (l : List Char) : List (List Char) :=
  ((splitSentenceSegments l).filter fun s => 10 < (pyStrip s).length).map
    fun s => pyStrip s ++ [' ']

/-- `_get_overlap_text` (`text_processing.py` lines 555–567): the last
`overlapSize` characters, snapped forward to the first space when one
occurs past position 0, with a space appended. -/
def getOverlapText (text : List Char) (overlapSize : Nat) : List Char :=
  if text.length ≤ overlapSize then text
  else
    match (text.drop (text.length - overlapSize)).findIdx? (fun c => c = ' ') with
    | some i =>
      if 0 < i then (text.drop (text.length - overlapSize)).drop i ++ [' ']
      else text.drop (text.length - overlapSize) ++ [' ']
    | none => text.drop (text.length - overlapSize) ++ [' ']

/-- One chunk produced by the `create_chunks` loop, with the ghost fields
`seed` (the `overlap_text` this chunk was seeded with) and `raw` (the
unstripped `current_chunk`). -/
structure ChunkRec where
  seed : List Char
  raw : List Char
  idx : Nat
  startPos : Nat
deriving DecidableEq, Repr

/-- The `for sentence in sentences` loop of `create_chunks`
(`text_processing.py` lines 495–525), including the final-chunk flush:
when the next sentence would overflow `maxSize` and the current chunk is
nonempty, the chunk is emitted and the next one is seeded with
`_get_overlap_text`; at the end the remaining content is emitted if its
stripped text is nonempty. -/
def chunkLoop (maxSize overlapSize : Nat) :
    List (List Char) → List Char → List Char → Nat → Nat → List ChunkRec
  | [], cur, seed, start, idx =>
    if pyStrip cur ≠ [] then [⟨seed, cur, idx, start⟩] else []
  | s :: rest, cur, seed, start, idx =>
    if maxSize < cur.length + s.length ∧ cur ≠ [] then
      ⟨seed, cur, idx, start⟩ ::
        chunkLoop maxSize overlapSize rest (getOverlapText cur overlapSize ++ s)
          (getOverlapText cur overlapSize)
          (start + (getOverlapText cur overlapSize ++ s).length
            - (getOverlapText cur overlapSize).length)
          (idx + 1)
    else chunkLoop maxSize overlapSize rest (cur ++ s) seed start idx

/-- `create_chunks` (`text_processing.py` lines 476–527) producing the
ghost-annotated chunk records: empty/whitespace-only input and
sentence-less input yield zero chunks. -/
def createChunkRecs (maxSize overlapSize : Nat) (text : List Char) : List ChunkRec :=
  if pyStrip text = [] then []
  else if sentencesOf (cleanTextL text) = [] then []
  else chunkLoop maxSize overlapSize (sentencesOf (cleanTextL text)) [] [] 0 0

/-- The fields of the Python `TextChunk` (minus the md5 hash). -/
structure TextChunk where
  text : List Char
  chunk_index : Nat
  char_count : Nat
  start_pos : Nat
  end_pos : Nat
deriving DecidableEq, Repr

/-- The `TextChunk(...)` constructor calls of `create_chunks`: the text is
the stripped `current_chunk`, `char_count` its length, `end_pos` is
`current_start + len(current_chunk)`. -/
def toTextChunk (r : ChunkRec) : TextChunk :=
  { text := pyStrip r.raw, chunk_index := r.idx, char_count := (pyStrip r.raw).length
    start_pos := r.startPos, end_pos := r.startPos + r.raw.length }

/-- `DocumentProcessor.create_chunks` (defaults `max_chunk_size = 1000`,
`overlap_size = 200` from `__init__`). -/
def create_chunks (maxSize overlapSize : Nat) (text : List Char) : List TextChunk :=
  (createChunkRecs maxSize overlapSize text).map toTextChunk

/-- Concatenation of the chunk contents with each chunk's overlap seed
removed from its front. -/
def dropSeeds (recs : List ChunkRec) : List Char :=
  (recs.map fun r => r.raw.drop r.seed.length).flatten

/-- "Concatenating the produced chunk texts with the overlap regions
removed": the seed-stripped chunk contents joined and trimmed. -/
def reconstructChunks (recs : List ChunkRec) : List Char :=
  pyStrip (dropSeeds recs)

theorem collapseRunsAux_all_space (p : Char → Bool) (rep : Char) :
    ∀ l : List Char, (∀ c ∈ l, p c) →
      collapseRunsAux p rep true l = [] ∧
        collapseRunsAux p rep false l = (if l = [] then [] else [rep]) := by
  intro l
  induction l with
  | nil => intro _; exact ⟨rfl, rfl⟩
  | cons c rest ih =>
    intro h
    have hc : p c := h c (List.mem_cons_self c rest)
    have hrest := ih fun d hd => h d (List.mem_cons_of_mem c hd)
    constructor
    · simp [collapseRunsAux, hc, hrest.1]
    · simp [collapseRunsAux, hc, hrest.1]

theorem cleanTextL_of_all_space (text : List Char) (h : ∀ c ∈ text, isPySpace c) :
    cleanTextL text = [] := by
  rw [cleanTextL]
  simp only [collapseRuns]
  rcases text with _ | ⟨c, rest⟩
  · rfl
  · have := (collapseRunsAux_all_space isPySpace ' ' (c :: rest) h).2
    rw [if_neg (by simp)] at this
    rw [this]
    rfl

theorem dropWhile_eq_nil_of_forall (p : Char → Bool) (l : List Char)
    (h : ∀ c ∈ l.dropWhile p, p c) : l.dropWhile p = [] := by
  induction l with
  | nil => rfl
  | cons a l ih =>
    by_cases ha : p a
    · rw [List.dropWhile_cons_of_pos ha] at *
      exact ih h
    · rw [List.dropWhile_cons_of_neg ha] at h
      exact absurd (h a (List.mem_cons_self a l)) ha

theorem pyStrip_eq_nil_iff (l : List Char) :
    pyStrip l = [] ↔ ∀ c ∈ l, isPySpace c := by
  constructor
  · intro h c hc
    rw [pyStrip, List.reverse_eq_nil_iff, List.dropWhile_eq_nil_iff] at h
    have hdrop : ∀ c ∈ l.dropWhile isPySpace, isPySpace c := by
      intro c hc
      exact h c (List.mem_reverse.mpr hc)
    have hl : l = l.takeWhile isPySpace ++ l.dropWhile isPySpace :=
      (List.takeWhile_append_dropWhile isPySpace l).symm
    rw [hl] at hc
    rcases List.mem_append.mp hc with hc | hc
    · exact List.mem_takeWhile_imp hc
    · exact hdrop c hc
  · intro h
    have : l.dropWhile isPySpace = [] := List.dropWhile_eq_nil_iff.mpr h
    rw [pyStrip, this]
    rfl

theorem pyStrip_pyStrip_eq_nil (l : List Char)
    (h : ∀ c ∈ pyStrip l, isPySpace c) : pyStrip l = [] := by
  rw [pyStrip] at h ⊢
  rw [List.reverse_eq_nil_iff]
  exact dropWhile_eq_nil_of_forall isPySpace _ fun c hc => h c (List.mem_reverse.mpr hc)

theorem sentencesOf_nonspace (l : List Char) :
    ∀ s ∈ sentencesOf l, ∃ c ∈ s, ¬ isPySpace c := by
  intro s hs
  rw [sentencesOf] at hs
  obtain ⟨s₀, hs₀, hseq⟩ := List.mem_map.mp hs
  have hlen : 10 < (pyStrip s₀).length := by
    have := List.of_mem_filter hs₀
    simpa using this
  have hne : pyStrip s₀ ≠ [] := by
    intro h; rw [h] at hlen; simp at hlen
  have : ¬ ∀ c ∈ pyStrip s₀, isPySpace c := fun hall => hne (pyStrip_pyStrip_eq_nil s₀ hall)
  push_neg at this
  obtain ⟨c, hc, hcns⟩ := this
  exact ⟨c, by rw [← hseq]; exact List.mem_append_left [' '] hc, by simpa using hcns⟩

theorem pyStrip_ne_nil_of_mem (l : List Char) (c : Char) (hc : c ∈ l)
    (hns : ¬ isPySpace c) : pyStrip l ≠ [] := by
  intro h
  exact hns ((pyStrip_eq_nil_iff l).mp h c hc)

/-- Invariant of the chunk loop: with `current_chunk = seed ++ body`, the
seed-stripped contents of the produced chunks concatenate to `body`
followed by all remaining sentences, in order. -/
theorem chunkLoop_dropSeeds (maxSize overlapSize : Nat) (sents : List (List Char)) :
    ∀ (seed body : List Char) (start idx : Nat),
      (∀ s ∈ sents, ∃ c ∈ s, ¬ isPySpace c) →
      (body = [] ∨ ∃ c ∈ body, ¬ isPySpace c) →
      dropSeeds (chunkLoop maxSize overlapSize sents (seed ++ body) seed start idx)
        = body ++ sents.flatten := by
  induction sents with
  | nil =>
    intro seed body start idx _ hbody
    rcases hbody with hbody | ⟨c, hc, hcns⟩
    · subst hbody
      simp only [chunkLoop, List.flatten_nil, List.append_nil]
      by_cases h : pyStrip (seed ++ []) ≠ [] <;>
        simp [h, dropSeeds]
    · have hne : pyStrip (seed ++ body) ≠ [] :=
        pyStrip_ne_nil_of_mem (seed ++ body) c (List.mem_append_right seed hc) hcns
      simp only [chunkLoop, if_pos hne, dropSeeds, List.map_cons, List.map_nil,
        List.flatten_cons, List.flatten_nil, List.append_nil]
      simp
  | cons s rest ih =>
    intro seed body start idx hsents hbody
    have hs : ∃ c ∈ s, ¬ isPySpace c := hsents s (List.mem_cons_self s rest)
    have hrest : ∀ t ∈ rest, ∃ c ∈ t, ¬ isPySpace c :=
      fun t ht => hsents t (List.mem_cons_of_mem s ht)
    by_cases hcond : maxSize < (seed ++ body).length + s.length ∧ seed ++ body ≠ []
    · simp only [chunkLoop, if_pos hcond]
      have := ih (getOverlapText (seed ++ body) overlapSize) s
        (start + (getOverlapText (seed ++ body) overlapSize ++ s).length
          - (getOverlapText (seed ++ body) overlapSize).length)
        (idx + 1) hrest (Or.inr hs)
      simp only [dropSeeds, List.map_cons, List.flatten_cons] at this ⊢
      rw [this]
      simp
    · simp only [chunkLoop, if_neg hcond]
      have hassoc : (seed ++ body) ++ s = seed ++ (body ++ s) := List.append_assoc seed body s
      rw [hassoc]
      have hbody' : body ++ s = [] ∨ ∃ c ∈ body ++ s, ¬ isPySpace c := by
        obtain ⟨c, hc, hcns⟩ := hs
        exact Or.inr ⟨c, List.mem_append_right body hc, hcns⟩
      have := ih seed (body ++ s) start idx hrest hbody'
      rw [this]
      simp

/-- C7 counterexample: for the input `Hello there my friend. Hi.`, the
cleaned text is unchanged but the chunker drops the short segment `Hi.`
(trimmed length ≤ 10), so the chunk texts with overlap regions removed
reconstruct only `Hello there my friend.` — not the cleaned source
text. -/
theorem C7_counterexample :
    reconstructChunks (createChunkRecs 1000 200 ("Hello there my friend. Hi.".data))
        = ("Hello there my friend.".data) ∧
      cleanTextL ("Hello there my friend. Hi.".data) = ("Hello there my friend. Hi.".data) ∧
      reconstructChunks (createChunkRecs 1000 200 ("Hello there my friend. Hi.".data))
        ≠ cleanTextL ("Hello there my friend. Hi.".data) := by
  refine ⟨by decide, by decide, by decide⟩

/-- C7 (amended): for every chunking input and sizes, concatenating the
produced chunk contents with the overlap regions removed reconstructs, in
order, the trimmed concatenation of the *retained* sentence segments of
the cleaned source text (segments whose trimmed length exceeds 10, each
trimmed and re-joined with single spaces); segments of trimmed length at
most 10 are dropped by `_split_into_sentences`, so the cleaned source text
itself is reconstructed exactly when no such short segment exists. -/
theorem C7_reconstruction (maxSize overlapSize : Nat) (text : List Char) :
    reconstructChunks (createChunkRecs maxSize overlapSize text)
      = pyStrip (sentencesOf (cleanTextL text)).flatten := by
  rw [createChunkRecs]
  by_cases h1 : pyStrip text = []
  · rw [if_pos h1]
    have hclean : cleanTextL text = [] :=
      cleanTextL_of_all_space text ((pyStrip_eq_nil_iff text).mp h1)
    rw [hclean]
    rfl
  · rw [if_neg h1]
    by_cases h2 : sentencesOf (cleanTextL text) = []
    · rw [if_pos h2, h2]
      rfl
    · rw [if_neg h2]
      have hns := sentencesOf_nonspace (cleanTextL text)
      have hmain := chunkLoop_dropSeeds maxSize overlapSize (sentencesOf (cleanTextL text))
        [] [] 0 0 hns (Or.inl rfl)
      simp only [List.append_nil, List.nil_append] at hmain
      rw [reconstructChunks, hmain]

/-! ## Embedding client and document pipeline (claims C5 and C1)

`OllamaClient.generate_embedding` / `generate_embeddings_batch`
(`app/services/ollama_client.py` lines 189–245) and
`DocumentProcessingPipeline.process_document`
(`app/services/document_processor.py` lines 32–213).  The external
embedding service is an oracle `svc : Nat → Option Embedding` giving the
outcome of the k-th embedding attempt (availability check plus the
`api/embeddings` request); `none` models a raised `OllamaError` /
timeout.  Float vector components are abstracted to integers — only
emptiness matters to the code.  Extraction (`analyze_document`'s
validation and format dispatch, which is filesystem and parser I/O) is an
oracle `Option (List Char)`: `none` models a raised extraction error.
Vector-store and SQL writes are modelled as succeeding; the code swallows
their failures (`document_processor.py` lines 102–146). -/

/-- An embedding vector with float components abstracted to integers. -/
abbrev Embedding := List Int

/-- `OllamaClient.generate_embedding` (`ollama_client.py` lines 189–221):
empty/whitespace text raises before any request (consuming no attempt); an
absent or empty `embedding` in the response raises too. -/
def generateEmbeddingAttempt (svc : Nat → Option Embedding) (k : Nat) (text : List Char) :
    Option Embedding × Nat :=
  if pyStrip text = [] then (none, k)
  else
    match svc k with
    | none => (none, k + 1)
    | some e => (if e = [] then none else some e, k + 1)

/-- `OllamaClient.generate_embeddings_batch` (`ollama_client.py` lines
223–245): one `generate_embedding` call per text; on any exception an
empty list is appended as a placeholder. -/
def generate_embeddings_batch (svc : Nat → Option Embedding) :
    List (List Char) → Nat → List Embedding × Nat
  | [], k => ([], k)
  | t :: ts, k =>
    ((generateEmbeddingAttempt svc k t).1.getD []
        :: (generate_embeddings_batch svc ts (generateEmbeddingAttempt svc k t).2).1,
      (generate_embeddings_batch svc ts (generateEmbeddingAttempt svc k t).2).2)

/-- The `process_document` result dictionary: `status` (`success = true`
for "success", `false` for "failed"), `chunks_stored` and the error. -/
structure PipelineResult where
  success : Bool
  chunks_stored : Nat
  error : Option String
deriving DecidableEq, Repr

/-- `DocumentProcessingPipeline.process_document`
(`document_processor.py` lines 32–213): extract and chunk (zero chunks
raises `ProcessingError`), embed every chunk text, keep the chunks with
non-empty embeddings, fail when none remain, otherwise store the valid
chunks and report their count; all exceptions are caught and returned as a
failed result dictionary. -/
def process_document (fullText : Option (List Char)) (svc : Nat → Option Embedding)
    (k : Nat) : PipelineResult × Nat :=
  match fullText with
  | none => ({ success := false, chunks_stored := 0, error := some "extraction failed" }, k)
  | some t =>
    if pyStrip t = [] then
      ({ success := false, chunks_stored := 0,
         error := some "No text content found in document" }, k)
    else
      if create_chunks 1000 200 t = [] then
        ({ success := false, chunks_stored := 0,
           error := some "No chunks created from document" }, k)
      else
        ({ success :=
            ((create_chunks 1000 200 t).zip
              (generate_embeddings_batch svc ((create_chunks 1000 200 t).map
                fun c => c.text) k).1).filter (fun p => p.2 ≠ []) ≠ [],
           chunks_stored :=
            (((create_chunks 1000 200 t).zip
              (generate_embeddings_batch svc ((create_chunks 1000 200 t).map
                fun c => c.text) k).1).filter (fun p => p.2 ≠ [])).length,
           error :=
            if ((create_chunks 1000 200 t).zip
              (generate_embeddings_batch svc ((create_chunks 1000 200 t).map
                fun c => c.text) k).1).filter (fun p => p.2 ≠ []) = []
            then some "Failed to generate any valid embeddings" else none },
        (generate_embeddings_batch svc ((create_chunks 1000 200 t).map
          fun c => c.text) k).2)

/-- An attempt oracle that fails on the first call and would succeed on
any later one. -/
def svcFailFirst : Nat → Option Embedding := fun k => if k = 0 then none else some [7]

/-- C5 counterexample: for a one-chunk batch whose first embedding attempt
fails, `generate_embeddings_batch` consumes exactly one attempt and marks
the chunk failed (empty placeholder), although the very next attempt would
have succeeded: the embedding call is not retried before the chunk is
marked failed. -/
theorem C5_counterexample :
    generate_embeddings_batch svcFailFirst ["This chunk text.".data] 0 = ([[]], 1) ∧
      svcFailFirst 1 = some [7] := by
  refine ⟨by decide, by decide⟩

theorem generate_embeddings_batch_length (svc : Nat → Option Embedding)
    (ts : List (List Char)) : ∀ k, (generate_embeddings_batch svc ts k).1.length = ts.length := by
  induction ts with
  | nil => intro k; rfl
  | cons t ts ih =>
    intro k
    simp only [generate_embeddings_batch, List.length_cons]
    rw [ih]

theorem generate_embeddings_batch_calls (svc : Nat → Option Embedding)
    (ts : List (List Char)) :
    ∀ k, (generate_embeddings_batch svc ts k).2
      = k + (ts.filter fun t => pyStrip t ≠ []).length := by
  induction ts with
  | nil => intro k; simp [generate_embeddings_batch]
  | cons t ts ih =>
    intro k
    simp only [generate_embeddings_batch]
    by_cases hb : pyStrip t = []
    · have hatt : (generateEmbeddingAttempt svc k t).2 = k := by
        simp [generateEmbeddingAttempt, hb]
      rw [hatt, ih k]
      simp [List.filter_cons, hb]
    · have hatt : (generateEmbeddingAttempt svc k t).2 = k + 1 := by
        rcases hs : svc k with _ | e <;> simp [generateEmbeddingAttempt, hb, hs]
      rw [hatt, ih (k + 1)]
      simp [List.filter_cons, hb]
      omega

theorem zip_filter_ne_nil_iff (chunks : List TextChunk) (embs : List Embedding)
    (hlen : chunks.length = embs.length) :
    (chunks.zip embs).filter (fun p => p.2 ≠ []) = [] ↔ ∀ e ∈ embs, e = [] := by
  induction chunks generalizing embs with
  | nil =>
    cases embs with
    | nil => simp
    | cons e es => simp at hlen
  | cons c cs ih =>
    cases embs with
    | nil => simp at hlen
    | cons e es =>
      have hlen' : cs.length = es.length := by simpa using hlen
      rw [List.zip_cons_cons, List.filter_cons]
      by_cases he : e = []
      · have hp : ¬ ((fun p : TextChunk × Embedding => decide (p.2 ≠ [])) (c, e) = true) := by
          simp [he]
        rw [if_neg hp, ih es hlen']
        simp [he]
      · have hp : (fun p : TextChunk × Embedding => decide (p.2 ≠ [])) (c, e) = true := by
          simp [he]
        rw [if_pos hp]
        simp [he]

/-- C5 (amended): each chunk's embedding is attempted exactly once — the
attempt counter advances by one per (non-blank) chunk text, with no
retries and no backoff, and a failed chunk simply receives an empty
placeholder; at the file level, `process_document` returns a failed result
precisely when every chunk's embedding failed (given the text chunks to at
least one chunk). -/
theorem C5_no_retry_and_all_chunks_failed (texts : List (List Char))
    (svc : Nat → Option Embedding) (k : Nat) (fullText : List Char)
    (hchunks : create_chunks 1000 200 fullText ≠ []) (hblank : pyStrip fullText ≠ []) :
    (generate_embeddings_batch svc texts k).2
        = k + (texts.filter fun t => pyStrip t ≠ []).length ∧
      ((process_document (some fullText) svc k).1.success = false ↔
        ∀ e ∈ (generate_embeddings_batch svc
            ((create_chunks 1000 200 fullText).map fun c => c.text) k).1, e = []) := by
  refine ⟨generate_embeddings_batch_calls svc texts k, ?_⟩
  rw [process_document]
  rw [if_neg hblank, if_neg hchunks]
  simp only
  rw [← zip_filter_ne_nil_iff (create_chunks 1000 200 fullText)
    (generate_embeddings_batch svc
      ((create_chunks 1000 200 fullText).map fun c => c.text) k).1
    (by rw [generate_embeddings_batch_length]; simp)]
  by_cases hv : ((create_chunks 1000 200 fullText).zip
      (generate_embeddings_batch svc ((create_chunks 1000 200 fullText).map
        fun c => c.text) k).1).filter (fun p => p.2 ≠ []) = []
  · simp [hv]
  · simp [hv]

/-- Witness for `C5_no_retry_and_all_chunks_failed` on a one-sentence
document whose single embedding attempt fails. -/
theorem C5_no_retry_witness :
    (create_chunks 1000 200 ("This is a valid sentence for chunking.".data) ≠ [] ∧
        pyStrip ("This is a valid sentence for chunking.".data) ≠ []) ∧
      ((generate_embeddings_batch svcFailFirst [("Short sentence here okay.".data)] 0).2
          = 0 + ([("Short sentence here okay.".data)].filter fun t => pyStrip t ≠ []).length ∧
        ((process_document (some ("This is a valid sentence for chunking.".data))
              svcFailFirst 0).1.success = false ↔
          ∀ e ∈ (generate_embeddings_batch svcFailFirst
              ((create_chunks 1000 200 ("This is a valid sentence for chunking.".data)).map
                fun c => c.text) 0).1, e = [])) :=
  ⟨⟨by decide, by decide⟩,
    C5_no_retry_and_all_chunks_failed [("Short sentence here okay.".data)] svcFailFirst 0
      ("This is a valid sentence for chunking.".data) (by decide) (by decide)⟩

/-! ## Per-file processor (claim C1)

`BatchProcessor._process_single_document` (`app/services/batch_processor.py`
lines 492–587): the `kb_documents` table becomes a `DocStore` (rows plus
the auto-increment id assigned by `flush()`).  `_calculate_file_hash`
streams the file's bytes — external I/O — so the computed hash is carried
on the `FileInfoM` record as an oracle input. -/

/-- `DocumentStatus` (`app/models/knowledge_base.py`). -/
inductive DocStatus where
  | uploaded
  | processing
  | completed
  | failed
deriving DecidableEq, Repr

/-- The columns of a `kb_documents` row written by
`_process_single_document`. -/
structure KBDocumentRow where
  id : Nat
  collection_id : Nat
  filename : String
  original_filename : String
  size_bytes : Nat
  sha256 : String
  file_path : String
  mime_type : Option String
  status : DocStatus
  chunk_count : Nat
  error_message : Option String
deriving DecidableEq, Repr

/-- The fields of `FileInfo` used by `_process_single_document`; `sha256`
is the oracle value of `_calculate_file_hash(file_info.path)`. -/
structure FileInfoM where
  relative_path : String
  name : String
  path : String
  size : Nat
  sha256 : String
  mime_type : Option String
deriving DecidableEq, Repr

/-- The `kb_documents` table plus the auto-increment id counter. -/
structure DocStore where
  docs : List KBDocumentRow
  nextDocId : Nat
deriving DecidableEq, Repr

/-- The per-file result dictionary of `_process_single_document`. -/
structure SingleDocResult where
  file : String
  success : Bool
  skipped : Bool
  reason : Option String
  document_id : Option Nat
  chunks : Nat
  error : Option String
deriving DecidableEq, Repr

/-- The duplicate-hash lookup (`batch_processor.py` lines 508–513):
`select(...).where(collection_id == ..., sha256 == file_hash)`. -/
def findDocByHash (store : DocStore) (cid : Nat) (h : String) : Option KBDocumentRow :=
  store.docs.find? fun d => d.collection_id == cid && d.sha256 == h

/-- `BatchProcessor._process_single_document` (`batch_processor.py` lines
492–587).  When a document with the same content hash already exists in
the collection, the file is *skipped*: the function returns a
success-with-`skipped` result and touches nothing.  Otherwise a new row is
created in `PROCESSING` status, the pipeline runs, and the row is set to
`COMPLETED` unconditionally (lines 554–559 do not consult the pipeline's
own `status` field) with `chunk_count` from the pipeline result and
`mime_type` overwritten with `result.get("detected_mime_type")` — a key
`process_document` never sets, i.e. `None`.  The `except` branch (a raise
from the session itself) is unreachable in this embedding because the
modelled pipeline returns its failures as values. -/
def process_single_document (fi : FileInfoM) (cid : Nat) (store : DocStore)
    (fullText : Option (List Char)) (svc : Nat → Option Embedding) (k : Nat) :
    DocStore × SingleDocResult × Nat :=
  match findDocByHash store cid fi.sha256 with
  | some _ =>
    (store,
      { file := fi.relative_path, success := true, skipped := true,
        reason := some "Duplicate file (same hash)", document_id := none, chunks := 0,
        error := none },
      k)
  | none =>
    ({ docs := store.docs ++
        [{ id := store.nextDocId, collection_id := cid, filename := fi.name,
           original_filename := fi.name, size_bytes := fi.size, sha256 := fi.sha256,
           file_path := fi.path, mime_type := none, status := DocStatus.completed,
           chunk_count := (process_document fullText svc k).1.chunks_stored,
           error_message := none }],
       nextDocId := store.nextDocId + 1 },
      { file := fi.relative_path, success := true, skipped := false, reason := none,
        document_id := some store.nextDocId,
        chunks := (process_document fullText svc k).1.chunks_stored, error := none },
      (process_document fullText svc k).2)

/-- An attempt oracle that always succeeds. -/
def svcAlwaysOk : Nat → Option Embedding := fun _ => some [5]

/-- A store already holding a completed document with content hash `h`. -/
def storeC1 : DocStore :=
  { docs :=
      [{ id := 1, collection_id := 1, filename := "report.pdf",
         original_filename := "report.pdf", size_bytes := 100, sha256 := "h",
         file_path := "/tmp/a/report.pdf", mime_type := none, status := DocStatus.completed,
         chunk_count := 3, error_message := none }],
    nextDocId := 2 }

/-- A fresh upload of a file with the same bytes (same hash `h`). -/
def fiC1 : FileInfoM :=
  { relative_path := "a/report.pdf", name := "report.pdf", path := "/tmp/b/report.pdf",
    size := 100, sha256 := "h", mime_type := none }

/-- C1 counterexample: uploading a file whose hash matches an existing
document leaves the store completely unchanged — the existing document is
*not* retired (no chunk rows deleted, no vectors removed, no document row
deleted) and *no* replacement document is created; the processor simply
reports a skipped success. -/
theorem C1_counterexample :
    (process_single_document fiC1 1 storeC1
        (some ("Some freshly extracted document text.".data)) svcAlwaysOk 0).1 = storeC1 ∧
      (process_single_document fiC1 1 storeC1
        (some ("Some freshly extracted document text.".data)) svcAlwaysOk 0).2.1.skipped
        = true ∧
      (process_single_document fiC1 1 storeC1
        (some ("Some freshly extracted document text.".data)) svcAlwaysOk 0).1.docs.length
        = 1 := by
  refine ⟨by decide, by decide, by decide⟩

/-- C1 (amended): for every file whose content hash matches an existing
document of the collection, `_process_single_document` skips the upload:
it returns success with `skipped = true` and reason "Duplicate file (same
hash)", consumes no embedding attempts, and leaves the document table
untouched — the existing document, its chunks and its vectors all stay in
place, and no replacement is created.  (The retire-and-replace behaviour
described by the spec exists only in `SimpleDocumentProcessor`, which the
batch path does not use.) -/
theorem C1_duplicate_is_skipped (fi : FileInfoM) (cid : Nat) (store : DocStore)
    (fullText : Option (List Char)) (svc : Nat → Option Embedding) (k : Nat)
    (h : ∃ d ∈ store.docs, d.collection_id = cid ∧ d.sha256 = fi.sha256) :
    process_single_document fi cid store fullText svc k
      = (store,
          { file := fi.relative_path, success := true, skipped := true,
            reason := some "Duplicate file (same hash)", document_id := none, chunks := 0,
            error := none },
          k) := by
  have hsome : (findDocByHash store cid fi.sha256).isSome := by
    rw [findDocByHash, List.find?_isSome]
    obtain ⟨d, hd, h1, h2⟩ := h
    exact ⟨d, hd, by simp [h1, h2]⟩
  rcases hf : findDocByHash store cid fi.sha256 with _ | d
  · rw [hf] at hsome; cases hsome
  · rw [process_single_document, hf]

/-- Witness for `C1_duplicate_is_skipped` at the concrete duplicate
upload. -/
theorem C1_duplicate_witness :
    (∃ d ∈ storeC1.docs, d.collection_id = 1 ∧ d.sha256 = fiC1.sha256) ∧
      process_single_document fiC1 1 storeC1
          (some ("Some freshly extracted document text.".data)) svcAlwaysOk 0
        = (storeC1,
            { file := fiC1.relative_path, success := true, skipped := true,
              reason := some "Duplicate file (same hash)", document_id := none, chunks := 0,
              error := none },
            0) :=
  ⟨⟨{ id := 1, collection_id := 1, filename := "report.pdf",
      original_filename := "report.pdf", size_bytes := 100, sha256 := "h",
      file_path := "/tmp/a/report.pdf", mime_type := none, status := DocStatus.completed,
      chunk_count := 3, error_message := none }, by decide, rfl, rfl⟩,
    C1_duplicate_is_skipped fiC1 1 storeC1
      (some ("Some freshly extracted document text.".data)) svcAlwaysOk 0
      ⟨{ id := 1, collection_id := 1, filename := "report.pdf",
          original_filename := "report.pdf", size_bytes := 100, sha256 := "h",
          file_path := "/tmp/a/report.pdf", mime_type := none, status := DocStatus.completed,
          chunk_count := 3, error_message := none }, by decide, rfl, rfl⟩⟩

/-! ## Cancel endpoint (claim C10)

`cancel_upload_job` (`app/api/routes/folder_upload.py` lines 323–365) and
`UploadManager.cancel_job` (`upload_manager_fixed.py` lines 378–409).
One behaviour of the route matters here: an `HTTPException` raised inside
the route's `try` block (the 404 for a collection mismatch and the 400
for a terminal status) is itself an `Exception`, so it is caught by the
route's final `except Exception` handler and re-raised as
`HTTPException(500, "Failed to cancel job: ...")` — the client observes
HTTP 500, not the intended 400/404.  A job-id with no row makes
`get_job_status` raise `ValueError`, which `get_job_status`'s own handler
rewraps into `BatchProcessingError`, caught by the route as HTTP 400. -/

/-- An HTTP error response. -/
structure HttpError where
  status_code : Nat
  detail : String
deriving DecidableEq, Repr

/-- The success payload of `cancel_job`. -/
structure CancelResp where
  job_id : String
  status : String
  message : String
deriving DecidableEq, Repr

/-- The in-memory `UploadManager.active_jobs` task table (keys only; the
asyncio task objects are opaque). -/
structure ManagerState where
  activeJobs : List String
deriving DecidableEq, Repr

/-- `select(UploadJob).where(UploadJob.job_id == job_id)`. -/
def getJobByJobId (jobs : List UploadJob) (jid : String) : Option UploadJob :=
  jobs.find? fun j => j.job_id == jid

/-- `UploadManager.cancel_job` (`upload_manager_fixed.py` lines 378–409):
drop the job from `active_jobs` (after `task.cancel()`, whose scheduling
effect is outside this embedding) and unconditionally update the row to
`CANCELLED` with a completion timestamp. -/
def cancel_job (mgr : ManagerState) (jobs : List UploadJob) (jid : String) (now : Nat) :
    ManagerState × List UploadJob × CancelResp :=
  ({ activeJobs := mgr.activeJobs.filter fun j => j ≠ jid },
    jobs.map fun j =>
      if j.job_id = jid then
        { j with status := JobStatus.cancelled, completed_at := some now }
      else j,
    { job_id := jid, status := "cancelled",
      message := "Job " ++ jid ++ " cancelled successfully" })

/-- The `DELETE .../upload-jobs/{job_id}/` route handler
(`folder_upload.py` lines 323–365), including the `except Exception`
rewrap of the in-`try` `HTTPException`s described above.  Error paths
return the manager state and table unchanged. -/
def cancel_upload_job (collectionId : Nat) (jid : String) (mgr : ManagerState)
    (jobs : List UploadJob) (now : Nat) :
    ManagerState × List UploadJob × Except HttpError CancelResp :=
  match getJobByJobId jobs jid with
  | none =>
    (mgr, jobs,
      Except.error ⟨400, "Failed to get job status: Job " ++ jid ++ " not found"⟩)
  | some job =>
    if job.collection_id ≠ collectionId then
      (mgr, jobs,
        Except.error ⟨500, "Failed to cancel job: 404: Job not found for this collection"⟩)
    else if job.status = JobStatus.completed ∨ job.status = JobStatus.failed
        ∨ job.status = JobStatus.cancelled then
      (mgr, jobs,
        Except.error ⟨500, "Failed to cancel job: 400: Cannot cancel job in terminal status"⟩)
    else
      ((cancel_job mgr jobs jid now).1, (cancel_job mgr jobs jid now).2.1,
        Except.ok (cancel_job mgr jobs jid now).2.2)

/-- C10: cancelling a job that is already terminal is rejected before
`cancel_job` runs — the job table (status, timestamps, counters) and the
task table are untouched, and only a pending or processing job can reach
the cancelled transition — but the rejection reaches the client as HTTP
500, not the claimed 400: the route's own catch-all `except Exception`
swallows the intended `HTTPException(400, ...)` and re-raises it as a 500
(code bug; the intent at `folder_upload.py` lines 341–345 is clearly
400). -/
theorem C10_terminal_cancel_rejected (cid : Nat) (jid : String) (mgr : ManagerState)
    (jobs : List UploadJob) (now : Nat) (job : UploadJob)
    (hfind : getJobByJobId jobs jid = some job)
    (hcoll : job.collection_id = cid)
    (hterm : job.status = JobStatus.completed ∨ job.status = JobStatus.failed
      ∨ job.status = JobStatus.cancelled) :
    (cancel_upload_job cid jid mgr jobs now).2.2
        = Except.error ⟨500, "Failed to cancel job: 400: Cannot cancel job in terminal status"⟩ ∧
      (cancel_upload_job cid jid mgr jobs now).2.1 = jobs ∧
      (cancel_upload_job cid jid mgr jobs now).1 = mgr ∧
      ∀ resp, (cancel_upload_job cid jid mgr jobs now).2.2 ≠ Except.ok resp := by
  have hne : ¬ job.collection_id ≠ cid := by simp [hcoll]
  simp only [cancel_upload_job, hfind]
  rw [if_neg hne, if_pos hterm]
  exact ⟨rfl, rfl, rfl, fun resp h => by cases h⟩

/-- Witness for `C10_terminal_cancel_rejected` at a concrete completed
job. -/
theorem C10_terminal_cancel_witness :
    (getJobByJobId [terminalJobC3] "upload_1700000001_ef567890" = some terminalJobC3 ∧
        terminalJobC3.collection_id = 1 ∧
        (terminalJobC3.status = JobStatus.completed ∨ terminalJobC3.status = JobStatus.failed
          ∨ terminalJobC3.status = JobStatus.cancelled)) ∧
      ((cancel_upload_job 1 "upload_1700000001_ef567890" ⟨[]⟩ [terminalJobC3] 11).2.2
          = Except.error
            ⟨500, "Failed to cancel job: 400: Cannot cancel job in terminal status"⟩ ∧
        (cancel_upload_job 1 "upload_1700000001_ef567890" ⟨[]⟩ [terminalJobC3] 11).2.1
          = [terminalJobC3] ∧
        (cancel_upload_job 1 "upload_1700000001_ef567890" ⟨[]⟩ [terminalJobC3] 11).1
          = (⟨[]⟩ : ManagerState) ∧
        ∀ resp, (cancel_upload_job 1 "upload_1700000001_ef567890" ⟨[]⟩
          [terminalJobC3] 11).2.2 ≠ Except.ok resp) :=
  ⟨⟨by decide, rfl, Or.inl rfl⟩,
    C10_terminal_cancel_rejected 1 "upload_1700000001_ef567890" ⟨[]⟩ [terminalJobC3] 11
      terminalJobC3 (by decide) rfl (Or.inl rfl)⟩

/-- The complement of the C10 theorem: a pending or processing job does
transition to `cancelled` (with a completion timestamp) through the
endpoint. -/
theorem cancel_nonterminal_transitions (cid : Nat) (jid : String) (mgr : ManagerState)
    (jobs : List UploadJob) (now : Nat) (job : UploadJob)
    (hfind : getJobByJobId jobs jid = some job)
    (hcoll : job.collection_id = cid)
    (hnt : job.status = JobStatus.pending ∨ job.status = JobStatus.processing) :
    (cancel_upload_job cid jid mgr jobs now).2.1
        = jobs.map (fun j =>
            if j.job_id = jid then
              { j with status := JobStatus.cancelled, completed_at := some now }
            else j) ∧
      (∃ resp, (cancel_upload_job cid jid mgr jobs now).2.2 = Except.ok resp) := by
  have hne : ¬ job.collection_id ≠ cid := by simp [hcoll]
  have hterm : ¬ (job.status = JobStatus.completed ∨ job.status = JobStatus.failed
      ∨ job.status = JobStatus.cancelled) := by
    rcases hnt with h | h <;> simp [h]
  simp only [cancel_upload_job, hfind]
  rw [if_neg hne, if_neg hterm]
  exact ⟨rfl, ⟨(cancel_job mgr jobs jid now).2.2, rfl⟩⟩

end LongArticleWriter
